import Mathlib

/-!
Verification of the realtime IR transceiver core of `PYNQ_IR_Communication.ipynb`
(the `%%microblaze` cell).  The C code is shallowly embedded: the instance
struct `wio_inst_type` becomes a Lean structure, `unsigned int` arithmetic is
`Nat` with explicit reduction modulo `2 ^ 32`, and the body of the `wio_enable`
while loop becomes a pure state-transformer applied once per sampled
`(current_time, current_rx)` pair.
-/

/-- Modulus of the 32-bit free-running counter (`unsigned int` width). -/
def W32 : Nat := 4294967296

/-- Unsigned 32-bit subtraction `a - b` as performed by the C expression
`current_time - self->rx_last_time` on `unsigned int` values. -/
def sub32 (a b : Nat) : Nat := (a + (W32 - b % W32)) % W32

/-- Shallow embedding of `wio_inst_type`.  Buffers are modelled as lists of
`Nat` (each entry an `unsigned int` value); `gpio` handles are modelled by the
pin numbers passed to `gpio_open`; `tx_pin_level` records the last value
driven onto the tx pin by `gpio_write`. -/
structure WioInst where
  tx_buffer : List Nat
  tx_buffer_cur : Nat
  tx_buffer_len : Nat
  tx_target_time : Nat
  tx_await_wrap : Nat
  tx_pin : Nat
  tx_pin_level : Nat
  rx_buffer : List Nat
  rx_buffer_cur : Nat
  rx_buffer_len : Nat
  rx_last_time : Nat
  rx_pin : Nat
  main_loop_running : Nat
  deriving Repr, DecidableEq

/-- The "generate transition" block of the transmit handler:
`gpio_write(tx_pin, ~cur & 1); await_wrap = target_time;`
`target_time += tx_buffer[cur++]; if (target_time >= await_wrap) await_wrap = 0;`.
All `unsigned int` updates are taken modulo `2 ^ 32`. -/
def txFire (s : WioInst) : WioInst :=
  let newTarget := (s.tx_target_time + s.tx_buffer.getD s.tx_buffer_cur 0) % W32
  { s with
    tx_pin_level := (s.tx_buffer_cur + 1) % 2,
    tx_await_wrap := if s.tx_target_time ≤ newTarget then 0 else s.tx_target_time,
    tx_target_time := newTarget,
    tx_buffer_cur := (s.tx_buffer_cur + 1) % W32 }

/-- The `// handle transmissions` block of the `wio_enable` loop body, for one
sampled counter value `n` (the C variable `current_time`). -/
def txStep (s : WioInst) (n : Nat) : WioInst :=
  if s.tx_buffer_cur ≠ s.tx_buffer_len then
    let s1 := if s.tx_buffer_cur = 0 then
        { s with tx_target_time := n, tx_await_wrap := 0 } else s
    let s2 := if n < s1.tx_await_wrap then { s1 with tx_await_wrap := 0 } else s1
    if s2.tx_await_wrap = 0 ∧ s2.tx_target_time ≤ n then txFire s2 else s2
  else s

/-- The `// handle reception` block of the `wio_enable` loop body, for a
sampled counter value `n` and input level `v` (the C variable `current_rx`). -/
def rxStep (s : WioInst) (n : Nat) (v : Nat) : WioInst :=
  if Nat.xor (s.rx_buffer_cur % 2) v ≠ 0 then
    { s with
      rx_buffer := s.rx_buffer.set s.rx_buffer_cur (sub32 n s.rx_last_time),
      rx_buffer_cur := (s.rx_buffer_cur + 1) % s.rx_buffer_len,
      rx_last_time := n }
  else s

/-- One iteration of the `wio_enable` while loop.  The C code samples
`current_time` and `current_rx` once at the top of the loop, then runs the
transmit handler followed by the receive handler on the same samples. -/
def loopIter (s : WioInst) (n : Nat) (v : Nat) : WioInst :=
  rxStep (txStep s n) n v

/-- `wio_tx_start`: store the requested length and reset the transmit cursor. -/
def wio_tx_start (s : WioInst) (tx_len : Nat) : WioInst :=
  { s with tx_buffer_len := tx_len, tx_buffer_cur := 0 }

/-- `wio_tx_cursor`. -/
def wio_tx_cursor (s : WioInst) : Nat := s.tx_buffer_cur

/-- `wio_rx_cursor`. -/
def wio_rx_cursor (s : WioInst) : Nat := s.rx_buffer_cur

/-- `wio_rx_reset`: sets the rx cursor to 0 and touches nothing else. -/
def wio_rx_reset (s : WioInst) : WioInst := { s with rx_buffer_cur := 0 }

/-- `wio_disable`. -/
def wio_disable (s : WioInst) : WioInst := { s with main_loop_running := 0 }

/-- `wio_enabled`. -/
def wio_enabled (s : WioInst) : Nat := s.main_loop_running

/-- The entry guard of `wio_enable`: if the loop is already running the call
returns at once, otherwise it sets `main_loop_running := 1` and enters the
loop (whose iterations are modelled by `loopIter`). -/
def wio_enable_entry (s : WioInst) : WioInst :=
  if s.main_loop_running ≠ 0 then s else { s with main_loop_running := 1 }

/-- `WIO_INST_COUNT`. -/
def WIO_INST_COUNT : Nat := 8

/-- The module-level state of the `%%microblaze` cell: the static instance
table, the static allocation counter, and — in place of the `XTmrCtr`
hardware handle — a count of how many times the timer startup sequence
(`XTmrCtr_Initialize` / `SetLoadReg` / `SetControlStatusReg`) has run. -/
structure WioGlobal where
  wio_inst : Nat → WioInst
  wio_inst_count : Nat
  timer_starts : Nat

/-- A zero-filled `wio_inst_type` slot: C static storage is zero-initialized
(the NULL buffer pointers are modelled by empty lists). -/
def wioInstZero : WioInst :=
  ⟨[], 0, 0, 0, 0, 0, 0, [], 0, 0, 0, 0, 0⟩

/-- Module state at program start. -/
def wioGlobalInit : WioGlobal := ⟨fun _ => wioInstZero, 0, 0⟩

/-- `wio_new`: allocates the slot `wio_inst_count`, advances the counter
modulo `WIO_INST_COUNT`, runs the timer startup when the chosen slot is 0,
assigns the listed fields of the slot and returns the slot index.
The fields `tx_target_time`, `tx_await_wrap`, `rx_last_time` (and the
physical pin level) are not assigned and keep the slot's previous values. -/
def wio_new (g : WioGlobal) (tx_pin : Nat) (tx_buffer : List Nat)
    (rx_pin : Nat) (rx_buffer : List Nat) (rx_buffer_len : Nat) :
    WioGlobal × Nat :=
  let self := g.wio_inst_count
  let old := g.wio_inst self
  let slot : WioInst :=
    { old with
      tx_buffer := tx_buffer,
      rx_buffer := rx_buffer,
      tx_buffer_len := 0,
      rx_buffer_len := rx_buffer_len,
      tx_buffer_cur := 0,
      rx_buffer_cur := 0,
      tx_pin := tx_pin,
      rx_pin := rx_pin,
      main_loop_running := 0 }
  (⟨fun i => if i = self then slot else g.wio_inst i,
    (g.wio_inst_count + 1) % WIO_INST_COUNT,
    if self = 0 then g.timer_starts + 1 else g.timer_starts⟩, self)

/-- Argument tuple for one `wio_new` call:
`(tx_pin, tx_buffer, rx_pin, rx_buffer, rx_buffer_len)`. -/
def WioArgs : Type := Nat × List Nat × Nat × List Nat × Nat

/-- Module state after the first `k` calls of `wio_new`, the `i`-th call
taking arguments `args i`. -/
def wioNewSeq (args : Nat → WioArgs) : Nat → WioGlobal
  | 0 => wioGlobalInit
  | k + 1 =>
      (wio_new (wioNewSeq args k) (args k).1 (args k).2.1 (args k).2.2.1
        (args k).2.2.2.1 (args k).2.2.2.2).1

/-- The handle returned by the `k`-th (0-based) `wio_new` call. -/
def wioNewHandle (args : Nat → WioArgs) (k : Nat) : Nat :=
  (wio_new (wioNewSeq args k) (args k).1 (args k).2.1 (args k).2.2.1
    (args k).2.2.2.1 (args k).2.2.2.2).2

/-- Per-tick run of the enabled loop: iteration `i` samples the counter value
`(t0 + i) % W32` (the free-running timer read at true time `t0 + i`) and the
input level `rxv (t0 + i)`. -/
def loopRun (s : WioInst) (rxv : Nat → Nat) (t0 : Nat) : Nat → WioInst
  | 0 => s
  | k + 1 => loopIter (loopRun s rxv t0 k) ((t0 + k) % W32) (rxv (t0 + k))

/-- Sum of the first `c` entries of a transmit buffer. -/
def psum (ds : List Nat) (c : Nat) : Nat := (ds.take c).sum

/-- The events that can touch one instance's state: a loop iteration (with
its sampled counter value and input level) and the four control calls. -/
inductive WioEvent where
  | iter (t : Nat) (v : Nat)
  | txStart (len : Nat)
  | rxReset
  | enab
  | disab
  deriving Repr, DecidableEq

/-- Applying one event.  Loop iterations only happen while the loop runs. -/
def applyEvent (s : WioInst) : WioEvent → WioInst
  | .iter t v => if s.main_loop_running ≠ 0 then loopIter s t v else s
  | .txStart len => wio_tx_start s len
  | .rxReset => wio_rx_reset s
  | .enab => wio_enable_entry s
  | .disab => wio_disable s

/-- A trace of events applied in order. -/
def runEvents (s : WioInst) (evs : List WioEvent) : WioInst :=
  evs.foldl applyEvent s

/-- Caller-side restriction assumed by the spec: a started transmission
length never exceeds the transmit buffer's true size `B`. -/
def eventOK (B : Nat) : WioEvent → Bool
  | .txStart len => len ≤ B
  | _ => true

/-- The value of `tx_await_wrap` while waiting out an interval: the state
`e` ticks after a transition that fired at counter value `T` and added the
interval `d` to the target. -/
def awaitAt (T d e : Nat) : Nat :=
  if W32 ≤ T + d ∧ T + e < W32 then T else 0

/-- Description of the transmit-side fields of a state. -/
def txState (s : WioInst) (ds : List Nat) (N c tgt aw : Nat) : Prop :=
  s.tx_buffer = ds ∧ s.tx_buffer_len = N ∧ s.tx_buffer_cur = c ∧
    s.tx_target_time = tgt ∧ s.tx_await_wrap = aw


/-- The per-instance invariant maintained by every event: the transmit
cursor never passes the queued length, the receive capacity is untouched
and the receive cursor stays inside it. -/
def WioInv (cap : Nat) (s : WioInst) : Prop :=
  s.tx_buffer_cur ≤ s.tx_buffer_len ∧ s.rx_buffer_len = cap ∧
    s.rx_buffer_cur < cap

/-- A concrete argument sequence for `wio_new` calls. -/
def cargs : Nat → WioArgs := fun _ => (0, [], 2, [0, 0], 2)

theorem W32_eq : W32 = 4294967296 := rfl

/-! ### Scenario lemmas for the transmit handler -/

theorem txStep_idle (s : WioInst) (n : Nat)
    (h : s.tx_buffer_cur = s.tx_buffer_len) : txStep s n = s := by
  unfold txStep
  rw [if_neg (by simpa using h)]

theorem txStep_wait (s : WioInst) (n : Nat)
    (h1 : s.tx_buffer_cur ≠ s.tx_buffer_len) (h2 : s.tx_buffer_cur ≠ 0)
    (h3 : ¬ n < s.tx_await_wrap)
    (h4 : ¬ (s.tx_await_wrap = 0 ∧ s.tx_target_time ≤ n)) :
    txStep s n = s := by
  unfold txStep
  rw [if_pos h1]
  simp only [if_neg h2]
  rw [if_neg h3, if_neg h4]

theorem txStep_clearOnly (s : WioInst) (n : Nat)
    (h1 : s.tx_buffer_cur ≠ s.tx_buffer_len) (h2 : s.tx_buffer_cur ≠ 0)
    (h3 : n < s.tx_await_wrap) (h4 : n < s.tx_target_time) :
    txStep s n = { s with tx_await_wrap := 0 } := by
  unfold txStep
  rw [if_pos h1]
  simp only [if_neg h2]
  rw [if_pos h3]
  have hcond : ¬ (({ s with tx_await_wrap := 0 } : WioInst).tx_await_wrap = 0 ∧
      ({ s with tx_await_wrap := 0 } : WioInst).tx_target_time ≤ n) := by
    simp
    omega
  rw [if_neg hcond]

theorem txStep_fire (s : WioInst) (n : Nat)
    (h1 : s.tx_buffer_cur ≠ s.tx_buffer_len) (h2 : s.tx_buffer_cur ≠ 0)
    (h3 : s.tx_await_wrap = 0 ∨ n < s.tx_await_wrap)
    (h4 : s.tx_target_time ≤ n) :
    txStep s n = txFire s := by
  unfold txStep
  rw [if_pos h1]
  simp only [if_neg h2]
  rcases Nat.lt_or_ge n s.tx_await_wrap with hlt | hge
  · rw [if_pos hlt]
    have hcond : (({ s with tx_await_wrap := 0 } : WioInst).tx_await_wrap = 0 ∧
        ({ s with tx_await_wrap := 0 } : WioInst).tx_target_time ≤ n) := ⟨rfl, h4⟩
    rw [if_pos hcond]
    show txFire { s with tx_await_wrap := 0 } = txFire s
    simp [txFire]
  · have h3a : s.tx_await_wrap = 0 := by
      rcases h3 with h | h
      · exact h
      · omega
    rw [if_neg (show ¬ n < s.tx_await_wrap by omega)]
    rw [if_pos (show s.tx_await_wrap = 0 ∧ s.tx_target_time ≤ n from ⟨h3a, h4⟩)]

theorem txStep_first (s : WioInst) (n : Nat)
    (h1 : s.tx_buffer_cur = 0) (h2 : s.tx_buffer_len ≠ 0) :
    txStep s n = txFire { s with tx_target_time := n, tx_await_wrap := 0 } := by
  unfold txStep
  rw [if_pos (show s.tx_buffer_cur ≠ s.tx_buffer_len by omega)]
  simp only [if_pos h1]
  rw [if_neg (show ¬ n < ({ s with tx_target_time := n, tx_await_wrap := 0 } :
    WioInst).tx_await_wrap by simp)]
  rw [if_pos (show ({ s with tx_target_time := n, tx_await_wrap := 0 } :
      WioInst).tx_await_wrap = 0 ∧
      ({ s with tx_target_time := n, tx_await_wrap := 0 } :
      WioInst).tx_target_time ≤ n from ⟨rfl, Nat.le_refl n⟩)]

/-- Every transmit step is one of: no change, a wrap-guard clear only, a fired
transition, or the immediate first transition. -/
theorem txStep_cases (s : WioInst) (n : Nat) :
    txStep s n = s ∨ txStep s n = { s with tx_await_wrap := 0 } ∨
    txStep s n = txFire s ∨
    txStep s n = txFire { s with tx_target_time := n, tx_await_wrap := 0 } := by
  by_cases hL : s.tx_buffer_cur = s.tx_buffer_len
  · exact Or.inl (txStep_idle s n hL)
  · by_cases h0 : s.tx_buffer_cur = 0
    · exact Or.inr (Or.inr (Or.inr (txStep_first s n h0 (by omega))))
    · by_cases hn : n < s.tx_await_wrap
      · by_cases ht : s.tx_target_time ≤ n
        · exact Or.inr (Or.inr (Or.inl (txStep_fire s n hL h0 (Or.inr hn) ht)))
        · exact Or.inr (Or.inl (txStep_clearOnly s n hL h0 hn (by omega)))
      · by_cases haw : s.tx_await_wrap = 0 ∧ s.tx_target_time ≤ n
        · exact Or.inr (Or.inr (Or.inl (txStep_fire s n hL h0 (Or.inl haw.1) haw.2)))
        · exact Or.inl (txStep_wait s n hL h0 hn haw)

/-! ### Frame lemmas: each handler touches only its own half of the state -/

theorem txStep_rx_frame (s : WioInst) (n : Nat) :
    (txStep s n).rx_buffer = s.rx_buffer ∧
    (txStep s n).rx_buffer_cur = s.rx_buffer_cur ∧
    (txStep s n).rx_buffer_len = s.rx_buffer_len ∧
    (txStep s n).rx_last_time = s.rx_last_time := by
  rcases txStep_cases s n with h | h | h | h <;> rw [h] <;> simp [txFire]

theorem rxStep_tx_frame (s : WioInst) (n v : Nat) :
    (rxStep s n v).tx_buffer = s.tx_buffer ∧
    (rxStep s n v).tx_buffer_cur = s.tx_buffer_cur ∧
    (rxStep s n v).tx_buffer_len = s.tx_buffer_len ∧
    (rxStep s n v).tx_target_time = s.tx_target_time ∧
    (rxStep s n v).tx_await_wrap = s.tx_await_wrap := by
  unfold rxStep
  split_ifs <;> simp

theorem txStep_running_frame (s : WioInst) (n : Nat) :
    (txStep s n).main_loop_running = s.main_loop_running := by
  rcases txStep_cases s n with h | h | h | h <;> rw [h] <;> simp [txFire]

theorem rxStep_running_frame (s : WioInst) (n v : Nat) :
    (rxStep s n v).main_loop_running = s.main_loop_running := by
  unfold rxStep
  split_ifs <;> simp

/-! ### Allocation-counter and timer-startup behaviour of `wio_new` -/

theorem wioNewSeq_count (args : Nat → WioArgs) (k : Nat) :
    (wioNewSeq args k).wio_inst_count = k % 8 := by
  induction k with
  | zero => rfl
  | succ m ih =>
    show (wio_new (wioNewSeq args m) _ _ _ _ _).1.wio_inst_count = (m + 1) % 8
    simp only [wio_new, WIO_INST_COUNT]
    rw [ih]
    omega

/-- C9: Implicit — handle allocation wraps silently: the k-th `wio_new` call
(0-based) returns the handle `k % 8`, so handles always lie in `[0, 8)`, and
the ninth call returns handle 0, overwriting the first instance's stored
state (buffers, pins, cursors, running flag) instead of failing. -/
theorem handle_wraps_mod8 (args : Nat → WioArgs) (k : Nat) :
    wioNewHandle args k = k % 8 ∧ wioNewHandle args k < 8 ∧
    ((wioNewSeq args 9).wio_inst 0).tx_buffer = (args 8).2.1 ∧
    ((wioNewSeq args 9).wio_inst 0).rx_buffer = (args 8).2.2.2.1 ∧
    ((wioNewSeq args 9).wio_inst 0).tx_pin = (args 8).1 ∧
    ((wioNewSeq args 9).wio_inst 0).rx_pin = (args 8).2.2.1 ∧
    ((wioNewSeq args 9).wio_inst 0).rx_buffer_len = (args 8).2.2.2.2 ∧
    ((wioNewSeq args 9).wio_inst 0).tx_buffer_cur = 0 ∧
    ((wioNewSeq args 9).wio_inst 0).rx_buffer_cur = 0 ∧
    ((wioNewSeq args 9).wio_inst 0).tx_buffer_len = 0 ∧
    ((wioNewSeq args 9).wio_inst 0).main_loop_running = 0 := by
  have hk : wioNewHandle args k = k % 8 := by
    show (wio_new (wioNewSeq args k) _ _ _ _ _).2 = k % 8
    rw [show (wio_new (wioNewSeq args k) (args k).1 (args k).2.1 (args k).2.2.1
      (args k).2.2.2.1 (args k).2.2.2.2).2 = (wioNewSeq args k).wio_inst_count from rfl]
    exact wioNewSeq_count args k
  have h8 : (wioNewSeq args 8).wio_inst_count = 0 := by
    rw [wioNewSeq_count]
  have h9 : wioNewSeq args 9 = (wio_new (wioNewSeq args 8) (args 8).1 (args 8).2.1
      (args 8).2.2.1 (args 8).2.2.2.1 (args 8).2.2.2.2).1 := rfl
  refine ⟨hk, by omega, ?_, ?_, ?_, ?_, ?_, ?_, ?_, ?_, ?_⟩ <;>
    rw [h9] <;> simp [wio_new, h8]

/-- C4 counterexample: the claim "only the first `wio_new` call performs the
hardware timer startup, for every number of calls" is false at nine calls:
after the first call the startup has run once, but after the ninth call it
has run twice (the ninth call allocates slot 0 again and re-runs
`XTmrCtr_Initialize`). -/
theorem timer_reinit_cex :
    (wioNewSeq cargs 1).timer_starts = 1 ∧ (wioNewSeq cargs 9).timer_starts = 2 := by
  constructor <;> rfl

/-- C4 amended: the timer startup runs on exactly those `wio_new` calls whose
allocated slot index is 0, i.e. `(n + 7) / 8` times after `n` calls — once
within the first eight constructions, and again each time the allocation
counter wraps. -/
theorem timer_starts_count (args : Nat → WioArgs) (n : Nat) :
    (wioNewSeq args n).timer_starts = (n + 7) / 8 := by
  induction n with
  | zero => rfl
  | succ m ih =>
    have hc := wioNewSeq_count args m
    show (wio_new (wioNewSeq args m) _ _ _ _ _).1.timer_starts = (m + 1 + 7) / 8
    simp only [wio_new]
    rw [hc, ih]
    split_ifs <;> omega

/-- C5 counterexample: `wio_new`, called when the maximum instance count (8)
has already been allocated, does not fail: the ninth call on a concrete
argument sequence returns the handle 0 and the module continues normally
(the allocation counter becomes 1). -/
theorem ninth_call_cex :
    wioNewHandle cargs 8 = 0 ∧ (wioNewSeq cargs 9).wio_inst_count = 1 := by
  constructor <;> rfl

/-- C5 amended: `wio_new` signals no error on capacity exhaustion; for every
argument sequence the call made after 8 allocations returns handle
`8 % 8 = 0`, silently reusing slot 0. -/
theorem wio_new_after_capacity (args : Nat → WioArgs) :
    wioNewHandle args 8 = 0 ∧ (wioNewSeq args 9).wio_inst_count = 1 := by
  constructor
  · show (wio_new (wioNewSeq args 8) _ _ _ _ _).2 = 0
    rw [show (wio_new (wioNewSeq args 8) (args 8).1 (args 8).2.1 (args 8).2.2.1
      (args 8).2.2.2.1 (args 8).2.2.2.2).2 = (wioNewSeq args 8).wio_inst_count from rfl]
    rw [wioNewSeq_count]
  · rw [wioNewSeq_count]

/-- C6 counterexample: neither form of caller misuse is rejected.  On a
state whose transmit buffer has true size 2, `wio_tx_start` with length 100
stores the length 100; and `wio_new` with the odd receive capacity 3 returns
normally, storing 3 as `rx_buffer_len`. -/
theorem misuse_unrejected_cex :
    (wio_tx_start { wioInstZero with tx_buffer := [7, 8] } 100).tx_buffer_len = 100 ∧
    (wio_tx_start { wioInstZero with tx_buffer := [7, 8] } 100).tx_buffer.length = 2 ∧
    ((wio_new wioGlobalInit 0 [] 2 [0, 0, 0] 3).1.wio_inst
      (wio_new wioGlobalInit 0 [] 2 [0, 0, 0] 3).2).rx_buffer_len = 3 := by
  refine ⟨rfl, rfl, rfl⟩

/-- C6 amended: the code performs no validation of caller input:
`wio_tx_start` stores any requested length (even one exceeding the transmit
buffer's true size) and resets the cursor, and `wio_new` stores any
`rx_buffer_len` (even an odd one) without checking it. -/
theorem no_misuse_validation (s : WioInst) (len tp rp cap : Nat)
    (g : WioGlobal) (tb rb : List Nat) :
    (wio_tx_start s len).tx_buffer_len = len ∧
    (wio_tx_start s len).tx_buffer_cur = 0 ∧
    ((wio_new g tp tb rp rb cap).1.wio_inst
      (wio_new g tp tb rp rb cap).2).rx_buffer_len = cap := by
  refine ⟨rfl, rfl, ?_⟩
  simp [wio_new]

/-- C8: `wio_rx_reset` is idempotent and lazy: two consecutive calls give
exactly the state one call gives, the cursor is 0 afterwards, and the
receive buffer contents (stale data included) are untouched. -/
theorem rx_reset_idempotent_lazy (s : WioInst) :
    wio_rx_reset (wio_rx_reset s) = wio_rx_reset s ∧
    wio_rx_cursor (wio_rx_reset s) = 0 ∧
    (wio_rx_reset s).rx_buffer = s.rx_buffer := by
  refine ⟨rfl, rfl, rfl⟩

/-- C7: the receive recording step.  On every loop iteration an edge is
detected exactly when `(rx_buffer_cur & 1) XOR current_rx` is nonzero; when
detected, the unsigned 32-bit difference `current_time - rx_last_time` is
written at `rx_buffer[rx_buffer_cur]`, the cursor advances by one modulo
`rx_buffer_len` and `rx_last_time` becomes `current_time`; otherwise every
receive-side field and the buffer stay unchanged. -/
theorem rx_record_step (s : WioInst) (n v : Nat) :
    (loopIter s n v).rx_buffer =
      (if Nat.xor (s.rx_buffer_cur % 2) v ≠ 0 then
        s.rx_buffer.set s.rx_buffer_cur (sub32 n s.rx_last_time)
      else s.rx_buffer) ∧
    (loopIter s n v).rx_buffer_cur =
      (if Nat.xor (s.rx_buffer_cur % 2) v ≠ 0 then
        (s.rx_buffer_cur + 1) % s.rx_buffer_len
      else s.rx_buffer_cur) ∧
    (loopIter s n v).rx_last_time =
      (if Nat.xor (s.rx_buffer_cur % 2) v ≠ 0 then n else s.rx_last_time) ∧
    (loopIter s n v).rx_buffer_len = s.rx_buffer_len := by
  rcases txStep_rx_frame s n with ⟨hb, hc, hlen, hlast⟩
  unfold loopIter rxStep
  by_cases hcond : Nat.xor ((txStep s n).rx_buffer_cur % 2) v ≠ 0
  · rw [if_pos hcond]
    rw [hc] at hcond
    simp [if_pos hcond, hb, hc, hlen, hlast]
  · rw [if_neg hcond]
    rw [hc] at hcond
    simp [if_neg hcond, hb, hc, hlen, hlast]

/-- C10: Implicit — construction leaves timing fields stale.  `wio_new`
assigns buffers, lengths, cursors, pins and the running flag, but writes
neither `tx_target_time` nor `tx_await_wrap` nor `rx_last_time`: the slot
keeps the previous values of those three fields, so the first interval an
edge records after construction is measured against the stale
`rx_last_time`. -/
theorem wio_new_stale_fields (g : WioGlobal) (tp rp cap t : Nat)
    (tb rb : List Nat) :
    (((wio_new g tp tb rp rb cap).1.wio_inst (wio_new g tp tb rp rb cap).2).tx_target_time
        = (g.wio_inst g.wio_inst_count).tx_target_time) ∧
    (((wio_new g tp tb rp rb cap).1.wio_inst (wio_new g tp tb rp rb cap).2).tx_await_wrap
        = (g.wio_inst g.wio_inst_count).tx_await_wrap) ∧
    (((wio_new g tp tb rp rb cap).1.wio_inst (wio_new g tp tb rp rb cap).2).rx_last_time
        = (g.wio_inst g.wio_inst_count).rx_last_time) ∧
    (((wio_new g tp tb rp rb cap).1.wio_inst (wio_new g tp tb rp rb cap).2).tx_buffer = tb) ∧
    (((wio_new g tp tb rp rb cap).1.wio_inst (wio_new g tp tb rp rb cap).2).rx_buffer = rb) ∧
    (((wio_new g tp tb rp rb cap).1.wio_inst (wio_new g tp tb rp rb cap).2).tx_buffer_len = 0) ∧
    (((wio_new g tp tb rp rb cap).1.wio_inst (wio_new g tp tb rp rb cap).2).rx_buffer_len = cap) ∧
    (((wio_new g tp tb rp rb cap).1.wio_inst (wio_new g tp tb rp rb cap).2).tx_buffer_cur = 0) ∧
    (((wio_new g tp tb rp rb cap).1.wio_inst (wio_new g tp tb rp rb cap).2).rx_buffer_cur = 0) ∧
    (((wio_new g tp tb rp rb cap).1.wio_inst (wio_new g tp tb rp rb cap).2).tx_pin = tp) ∧
    (((wio_new g tp tb rp rb cap).1.wio_inst (wio_new g tp tb rp rb cap).2).rx_pin = rp) ∧
    (((wio_new g tp tb rp rb cap).1.wio_inst (wio_new g tp tb rp rb cap).2).main_loop_running = 0) ∧
    ((rxStep ((wio_new g tp tb rp rb cap).1.wio_inst (wio_new g tp tb rp rb cap).2) t 1).rx_buffer
        = rb.set 0 (sub32 t (g.wio_inst g.wio_inst_count).rx_last_time)) := by
  refine ⟨?_, ?_, ?_, ?_, ?_, ?_, ?_, ?_, ?_, ?_, ?_, ?_, ?_⟩ <;>
    simp [wio_new, rxStep]

/-! ### Cursor invariants -/

theorem txStep_cur_le (s : WioInst) (n : Nat)
    (h : s.tx_buffer_cur ≤ s.tx_buffer_len) :
    (txStep s n).tx_buffer_cur ≤ (txStep s n).tx_buffer_len := by
  have hmod : (s.tx_buffer_cur + 1) % W32 ≤ s.tx_buffer_cur + 1 := Nat.mod_le _ _
  by_cases hL : s.tx_buffer_cur = s.tx_buffer_len
  · rw [txStep_idle s n hL]
    exact h
  · have hlt : s.tx_buffer_cur < s.tx_buffer_len := by omega
    by_cases h0 : s.tx_buffer_cur = 0
    · rw [txStep_first s n h0 (by omega)]
      simp only [txFire]
      omega
    · by_cases hn : n < s.tx_await_wrap
      · by_cases ht : s.tx_target_time ≤ n
        · rw [txStep_fire s n hL h0 (Or.inr hn) ht]
          simp only [txFire]
          omega
        · rw [txStep_clearOnly s n hL h0 hn (by omega)]
          exact h
      · by_cases haw : s.tx_await_wrap = 0 ∧ s.tx_target_time ≤ n
        · rw [txStep_fire s n hL h0 (Or.inl haw.1) haw.2]
          simp only [txFire]
          omega
        · rw [txStep_wait s n hL h0 hn haw]
          exact h

theorem rxStep_inv (s : WioInst) (n v cap : Nat) (hcap : 0 < cap)
    (hlen : s.rx_buffer_len = cap) (h : s.rx_buffer_cur < cap) :
    (rxStep s n v).rx_buffer_cur < cap ∧ (rxStep s n v).rx_buffer_len = cap := by
  unfold rxStep
  split_ifs with hc
  · refine ⟨?_, hlen⟩
    show (s.rx_buffer_cur + 1) % s.rx_buffer_len < cap
    rw [hlen]
    exact Nat.mod_lt _ hcap
  · exact ⟨h, hlen⟩

theorem applyEvent_inv (cap : Nat) (hcap : 0 < cap) (s : WioInst) (e : WioEvent)
    (h : WioInv cap s) : WioInv cap (applyEvent s e) := by
  rcases h with ⟨htx, hlen, hrx⟩
  cases e with
  | iter t v =>
    simp only [applyEvent]
    split_ifs with hr
    · show WioInv cap (rxStep (txStep s t) t v)
      have h1 := txStep_cur_le s t htx
      rcases rxStep_tx_frame (txStep s t) t v with ⟨_, hc2, hl2, _, _⟩
      rcases txStep_rx_frame s t with ⟨_, hc1, hl1, _⟩
      have h2 := rxStep_inv (txStep s t) t v cap hcap
        (by rw [hl1]; exact hlen) (by rw [hc1]; exact hrx)
      exact ⟨by rw [hc2, hl2]; exact h1, h2.2, h2.1⟩
    · exact ⟨htx, hlen, hrx⟩
  | txStart len => exact ⟨Nat.zero_le _, hlen, hrx⟩
  | rxReset => exact ⟨htx, hlen, hcap⟩
  | enab =>
    show WioInv cap (wio_enable_entry s)
    unfold wio_enable_entry
    split_ifs <;> exact ⟨htx, hlen, hrx⟩
  | disab => exact ⟨htx, hlen, hrx⟩

theorem runEvents_inv (cap : Nat) (hcap : 0 < cap) (evs : List WioEvent) :
    ∀ s, WioInv cap s → WioInv cap (runEvents s evs) := by
  induction evs with
  | nil => exact fun s h => h
  | cons e t ih => exact fun s h => ih _ (applyEvent_inv cap hcap s e h)

/-- C3: cursor-bound invariants.  Starting from a freshly constructed
instance (receive capacity a positive even number) and applying any
interleaving of loop iterations, `wio_tx_start` (with lengths bounded by the
transmit buffer's size), `wio_rx_reset`, `wio_enable` and `wio_disable`:
`tx_buffer_cur ≤ tx_buffer_len` and `rx_buffer_cur < cap` hold in every
reachable state, and on every recorded edge the receive cursor advances by
exactly one modulo the capacity. -/
theorem cursor_invariants (g : WioGlobal) (tp rp cap t v : Nat)
    (tb rb : List Nat) (evs : List WioEvent)
    (hcap : 0 < cap) (hcape : cap % 2 = 0)
    (hevs : ∀ e ∈ evs, eventOK tb.length e = true) :
    (runEvents ((wio_new g tp tb rp rb cap).1.wio_inst
        (wio_new g tp tb rp rb cap).2) evs).tx_buffer_cur ≤
      (runEvents ((wio_new g tp tb rp rb cap).1.wio_inst
        (wio_new g tp tb rp rb cap).2) evs).tx_buffer_len ∧
    (runEvents ((wio_new g tp tb rp rb cap).1.wio_inst
        (wio_new g tp tb rp rb cap).2) evs).rx_buffer_cur < cap ∧
    ((runEvents ((wio_new g tp tb rp rb cap).1.wio_inst
        (wio_new g tp tb rp rb cap).2) evs).main_loop_running ≠ 0 →
      Nat.xor ((runEvents ((wio_new g tp tb rp rb cap).1.wio_inst
        (wio_new g tp tb rp rb cap).2) evs).rx_buffer_cur % 2) v ≠ 0 →
      (applyEvent (runEvents ((wio_new g tp tb rp rb cap).1.wio_inst
          (wio_new g tp tb rp rb cap).2) evs) (WioEvent.iter t v)).rx_buffer_cur =
        ((runEvents ((wio_new g tp tb rp rb cap).1.wio_inst
          (wio_new g tp tb rp rb cap).2) evs).rx_buffer_cur + 1) % cap) := by
  have h0 : WioInv cap ((wio_new g tp tb rp rb cap).1.wio_inst
      (wio_new g tp tb rp rb cap).2) := by
    refine ⟨?_, ?_, ?_⟩ <;> simp [wio_new]
    exact hcap
  have hinv := runEvents_inv cap hcap evs _ h0
  rcases hinv with ⟨htx, hlen, hrx⟩
  refine ⟨htx, hrx, ?_⟩
  intro hrun hxor
  simp only [applyEvent]
  rw [if_pos hrun]
  have hrec := rx_record_step (runEvents ((wio_new g tp tb rp rb cap).1.wio_inst
    (wio_new g tp tb rp rb cap).2) evs) t v
  rw [hrec.2.1, if_pos hxor, hlen]

/-- Witness for `cursor_invariants` at a concrete construction and event
trace. -/
theorem cursor_invariants_witness :
    ((0 : Nat) < 2 ∧ (2 : Nat) % 2 = 0 ∧
      (∀ e ∈ [WioEvent.enab, WioEvent.txStart 2, WioEvent.iter 0 1,
        WioEvent.rxReset], eventOK (List.length [(3 : Nat), 4]) e = true)) ∧
    ((runEvents ((wio_new wioGlobalInit 0 [3, 4] 2 [0, 0] 2).1.wio_inst
        (wio_new wioGlobalInit 0 [3, 4] 2 [0, 0] 2).2)
        [WioEvent.enab, WioEvent.txStart 2, WioEvent.iter 0 1,
          WioEvent.rxReset]).tx_buffer_cur ≤
      (runEvents ((wio_new wioGlobalInit 0 [3, 4] 2 [0, 0] 2).1.wio_inst
        (wio_new wioGlobalInit 0 [3, 4] 2 [0, 0] 2).2)
        [WioEvent.enab, WioEvent.txStart 2, WioEvent.iter 0 1,
          WioEvent.rxReset]).tx_buffer_len ∧
    (runEvents ((wio_new wioGlobalInit 0 [3, 4] 2 [0, 0] 2).1.wio_inst
        (wio_new wioGlobalInit 0 [3, 4] 2 [0, 0] 2).2)
        [WioEvent.enab, WioEvent.txStart 2, WioEvent.iter 0 1,
          WioEvent.rxReset]).rx_buffer_cur < 2 ∧
    ((runEvents ((wio_new wioGlobalInit 0 [3, 4] 2 [0, 0] 2).1.wio_inst
        (wio_new wioGlobalInit 0 [3, 4] 2 [0, 0] 2).2)
        [WioEvent.enab, WioEvent.txStart 2, WioEvent.iter 0 1,
          WioEvent.rxReset]).main_loop_running ≠ 0 →
      Nat.xor ((runEvents ((wio_new wioGlobalInit 0 [3, 4] 2 [0, 0] 2).1.wio_inst
        (wio_new wioGlobalInit 0 [3, 4] 2 [0, 0] 2).2)
        [WioEvent.enab, WioEvent.txStart 2, WioEvent.iter 0 1,
          WioEvent.rxReset]).rx_buffer_cur % 2) 1 ≠ 0 →
      (applyEvent (runEvents ((wio_new wioGlobalInit 0 [3, 4] 2 [0, 0] 2).1.wio_inst
          (wio_new wioGlobalInit 0 [3, 4] 2 [0, 0] 2).2)
          [WioEvent.enab, WioEvent.txStart 2, WioEvent.iter 0 1,
            WioEvent.rxReset]) (WioEvent.iter 5 1)).rx_buffer_cur =
        ((runEvents ((wio_new wioGlobalInit 0 [3, 4] 2 [0, 0] 2).1.wio_inst
          (wio_new wioGlobalInit 0 [3, 4] 2 [0, 0] 2).2)
          [WioEvent.enab, WioEvent.txStart 2, WioEvent.iter 0 1,
            WioEvent.rxReset]).rx_buffer_cur + 1) % 2)) :=
  ⟨⟨by decide, by decide, by decide⟩,
    cursor_invariants wioGlobalInit 0 2 2 5 1 [3, 4] [0, 0]
      [WioEvent.enab, WioEvent.txStart 2, WioEvent.iter 0 1, WioEvent.rxReset]
      (by decide) (by decide) (by decide)⟩

/-! ### Timing of the transmit state machine under a per-tick clock -/

theorem mod_shift (a b k : Nat) (h : a % W32 = b) :
    (a + k) % W32 = (b + k) % W32 := by
  rw [W32_eq] at h ⊢
  omega

theorem loopIter_tx_fields (s : WioInst) (n v : Nat) :
    (loopIter s n v).tx_buffer = (txStep s n).tx_buffer ∧
    (loopIter s n v).tx_buffer_cur = (txStep s n).tx_buffer_cur ∧
    (loopIter s n v).tx_buffer_len = (txStep s n).tx_buffer_len ∧
    (loopIter s n v).tx_target_time = (txStep s n).tx_target_time ∧
    (loopIter s n v).tx_await_wrap = (txStep s n).tx_await_wrap :=
  rxStep_tx_frame (txStep s n) n v

/-- While waiting out one interval `d` added at counter value `T`, the state
is unchanged except that the wrap-guard is cleared once the live counter
wraps past zero: `e` ticks after the transition (for `e ≤ d - 1`) the cursor,
target and buffer are untouched and the guard holds `awaitAt T d e`. -/
theorem interval_hold (ds : List Nat) (N c T d : Nat) (s : WioInst)
    (rxv : Nat → Nat) (τ : Nat)
    (hbuf : s.tx_buffer = ds) (hlen : s.tx_buffer_len = N)
    (hcur : s.tx_buffer_cur = c)
    (htgt : s.tx_target_time = (T + d) % W32)
    (haw : s.tx_await_wrap = (if T + d < W32 then 0 else T))
    (hc1 : 1 ≤ c) (hcN : c ≠ N) (hT : T < W32) (hd0 : 0 < d) (hdW : d < W32)
    (hτ : τ % W32 = T) :
    ∀ e, e ≤ d - 1 →
      (loopRun s rxv (τ + 1) e).tx_buffer = ds ∧
      (loopRun s rxv (τ + 1) e).tx_buffer_len = N ∧
      (loopRun s rxv (τ + 1) e).tx_buffer_cur = c ∧
      (loopRun s rxv (τ + 1) e).tx_target_time = (T + d) % W32 ∧
      (loopRun s rxv (τ + 1) e).tx_await_wrap = awaitAt T d e := by
  intro e
  induction e with
  | zero =>
    intro _
    refine ⟨hbuf, hlen, hcur, htgt, ?_⟩
    show s.tx_await_wrap = awaitAt T d 0
    rw [haw]
    unfold awaitAt
    split_ifs <;> omega
  | succ m ih =>
    intro hm
    rcases ih (by omega) with ⟨ib, il, ic, it, ia⟩
    have hstep : loopRun s rxv (τ + 1) (m + 1) =
        loopIter (loopRun s rxv (τ + 1) m) ((τ + 1 + m) % W32)
          (rxv (τ + 1 + m)) := rfl
    rcases loopIter_tx_fields (loopRun s rxv (τ + 1) m) ((τ + 1 + m) % W32)
      (rxv (τ + 1 + m)) with ⟨fb, fc, fl, ft, fa⟩
    have hn : (τ + 1 + m) % W32 = (T + (1 + m)) % W32 := by
      have := mod_shift τ T (1 + m) hτ
      rw [← this]
      ring_nf
    by_cases hA : T + d < W32
    · -- no overflow: the guard is 0 and the counter has not reached the target
      have hawm : awaitAt T d m = 0 := by
        unfold awaitAt
        split_ifs <;> omega
      have hnv : (τ + 1 + m) % W32 = T + 1 + m := by
        rw [hn, W32_eq]
        rw [W32_eq] at hA
        omega
      have htv : (T + d) % W32 = T + d := by
        rw [W32_eq]
        rw [W32_eq] at hA
        omega
      have heq : txStep (loopRun s rxv (τ + 1) m) ((τ + 1 + m) % W32) =
          loopRun s rxv (τ + 1) m := by
        apply txStep_wait
        · rw [ic, il]
          exact hcN
        · rw [ic]
          omega
        · rw [ia, hawm, hnv]
          omega
        · rw [ia, hawm, it, hnv, htv]
          intro hx
          omega
      rw [hstep, fb, fc, fl, ft, fa, heq]
      refine ⟨ib, il, ic, it, ?_⟩
      rw [ia, hawm]
      unfold awaitAt
      split_ifs <;> omega
    · -- overflow case: W32 ≤ T + d
      have hT1 : 1 ≤ T := by
        rw [W32_eq] at hA hdW
        omega
      have htv : (T + d) % W32 = T + d - W32 := by
        rw [W32_eq] at hA hT hdW ⊢
        omega
      by_cases hB1 : T + (1 + m) < W32
      · -- counter still ahead of the guard: nothing happens
        have hawm : awaitAt T d m = T := by
          unfold awaitAt
          split_ifs <;> omega
        have hnv : (τ + 1 + m) % W32 = T + 1 + m := by
          rw [hn, W32_eq]
          rw [W32_eq] at hB1
          omega
        have heq : txStep (loopRun s rxv (τ + 1) m) ((τ + 1 + m) % W32) =
            loopRun s rxv (τ + 1) m := by
          apply txStep_wait
          · rw [ic, il]
            exact hcN
          · rw [ic]
            omega
          · rw [ia, hawm, hnv]
            omega
          · rw [ia, hawm]
            intro hx
            omega
        rw [hstep, fb, fc, fl, ft, fa, heq]
        refine ⟨ib, il, ic, it, ?_⟩
        rw [ia, hawm]
        unfold awaitAt
        split_ifs <;> omega
      · by_cases hB2 : T + (1 + m) = W32
        · -- the counter wraps to 0 this tick: the guard is cleared, no fire
          have hawm : awaitAt T d m = T := by
            unfold awaitAt
            split_ifs <;> omega
          have hnv : (τ + 1 + m) % W32 = 0 := by
            rw [hn, hB2]
            exact Nat.mod_self W32
          have hdgt : 0 < T + d - W32 := by
            rw [W32_eq] at hA hB2 ⊢
            omega
          have heq : txStep (loopRun s rxv (τ + 1) m) ((τ + 1 + m) % W32) =
              { (loopRun s rxv (τ + 1) m) with tx_await_wrap := 0 } := by
            apply txStep_clearOnly
            · rw [ic, il]
              exact hcN
            · rw [ic]
              omega
            · rw [ia, hawm, hnv]
              omega
            · rw [it, hnv, htv]
              omega
          rw [hstep, fb, fc, fl, ft, fa, heq]
          refine ⟨ib, il, ic, it, ?_⟩
          show (0 : Nat) = awaitAt T d (m + 1)
          unfold awaitAt
          split_ifs <;> omega
        · -- already wrapped: the guard is clear, the target not yet reached
          have hawm : awaitAt T d m = 0 := by
            unfold awaitAt
            split_ifs <;> omega
          have hnv : (τ + 1 + m) % W32 = T + 1 + m - W32 := by
            rw [hn, W32_eq]
            rw [W32_eq] at hB1 hB2 hT hdW
            omega
          have heq : txStep (loopRun s rxv (τ + 1) m) ((τ + 1 + m) % W32) =
              loopRun s rxv (τ + 1) m := by
            apply txStep_wait
            · rw [ic, il]
              exact hcN
            · rw [ic]
              omega
            · rw [ia, hawm, hnv]
              omega
            · rw [ia, hawm, it, hnv, htv]
              intro hx
              rw [W32_eq] at hx hB1 hB2
              omega
          rw [hstep, fb, fc, fl, ft, fa, heq]
          refine ⟨ib, il, ic, it, ?_⟩
          rw [ia, hawm]
          unfold awaitAt
          split_ifs <;> omega

theorem aw_form (t dd : Nat) (ht : t < W32) (hd : dd < W32) :
    (if t ≤ (t + dd) % W32 then (0 : Nat) else t) =
      (if t + dd < W32 then 0 else t) := by
  rw [W32_eq] at ht hd ⊢
  split_ifs <;> omega

/-- The next transition fires exactly `d` ticks after the previous one, at
the modular target value, leaving the post-fire state of the following
interval. -/
theorem interval_fire (ds : List Nat) (N c T d : Nat) (s : WioInst)
    (rxv : Nat → Nat) (τ : Nat)
    (hbuf : s.tx_buffer = ds) (hlen : s.tx_buffer_len = N)
    (hcur : s.tx_buffer_cur = c)
    (htgt : s.tx_target_time = (T + d) % W32)
    (haw : s.tx_await_wrap = (if T + d < W32 then 0 else T))
    (hc1 : 1 ≤ c) (hcN : c ≠ N) (hT : T < W32) (hd0 : 0 < d) (hdW : d < W32)
    (hτ : τ % W32 = T) (hcW : c + 1 < W32) (hd2W : ds.getD c 0 < W32) :
    (loopRun s rxv (τ + 1) d).tx_buffer = ds ∧
    (loopRun s rxv (τ + 1) d).tx_buffer_len = N ∧
    (loopRun s rxv (τ + 1) d).tx_buffer_cur = c + 1 ∧
    (loopRun s rxv (τ + 1) d).tx_target_time =
      ((T + d) % W32 + ds.getD c 0) % W32 ∧
    (loopRun s rxv (τ + 1) d).tx_await_wrap =
      (if (T + d) % W32 + ds.getD c 0 < W32 then 0 else (T + d) % W32) := by
  obtain ⟨d1, rfl⟩ : ∃ d1, d = d1 + 1 := ⟨d - 1, by omega⟩
  rcases interval_hold ds N c T (d1 + 1) s rxv τ hbuf hlen hcur htgt haw hc1
    hcN hT hd0 hdW hτ d1 (by omega) with ⟨ib, il, ic, it, ia⟩
  have hstep : loopRun s rxv (τ + 1) (d1 + 1) =
      loopIter (loopRun s rxv (τ + 1) d1) ((τ + 1 + d1) % W32)
        (rxv (τ + 1 + d1)) := rfl
  rcases loopIter_tx_fields (loopRun s rxv (τ + 1) d1) ((τ + 1 + d1) % W32)
    (rxv (τ + 1 + d1)) with ⟨fb, fc, fl, ft, fa⟩
  have hn : (τ + 1 + d1) % W32 = (T + (d1 + 1)) % W32 := by
    rw [W32_eq] at hτ ⊢
    omega
  have heq : txStep (loopRun s rxv (τ + 1) d1) ((τ + 1 + d1) % W32) =
      txFire (loopRun s rxv (τ + 1) d1) := by
    apply txStep_fire
    · rw [ic, il]
      exact hcN
    · rw [ic]
      omega
    · by_cases hreg : W32 ≤ T + (d1 + 1) ∧ T + d1 < W32
      · refine Or.inr ?_
        have hT1 : 1 ≤ T := by
          rw [W32_eq] at hreg hdW
          omega
        have hnv : (τ + 1 + d1) % W32 = 0 := by
          rw [hn, W32_eq]
          rw [W32_eq] at hreg
          omega
        have hav : awaitAt T (d1 + 1) d1 = T := by
          unfold awaitAt
          rw [if_pos hreg]
        rw [ia, hav, hnv]
        omega
      · refine Or.inl ?_
        rw [ia]
        unfold awaitAt
        rw [if_neg hreg]
    · rw [it, hn]
  rw [hstep, fb, fc, fl, ft, fa, heq]
  refine ⟨?_, ?_, ?_, ?_, ?_⟩
  · show (loopRun s rxv (τ + 1) d1).tx_buffer = ds
    exact ib
  · show (loopRun s rxv (τ + 1) d1).tx_buffer_len = N
    exact il
  · show ((loopRun s rxv (τ + 1) d1).tx_buffer_cur + 1) % W32 = c + 1
    rw [ic]
    rw [W32_eq] at hcW ⊢
    omega
  · show ((loopRun s rxv (τ + 1) d1).tx_target_time +
        (loopRun s rxv (τ + 1) d1).tx_buffer.getD
          (loopRun s rxv (τ + 1) d1).tx_buffer_cur 0) % W32 =
      ((T + (d1 + 1)) % W32 + ds.getD c 0) % W32
    rw [it, ib, ic]
  · show (if (loopRun s rxv (τ + 1) d1).tx_target_time ≤
        ((loopRun s rxv (τ + 1) d1).tx_target_time +
          (loopRun s rxv (τ + 1) d1).tx_buffer.getD
            (loopRun s rxv (τ + 1) d1).tx_buffer_cur 0) % W32 then 0
      else (loopRun s rxv (τ + 1) d1).tx_target_time) =
      (if (T + (d1 + 1)) % W32 + ds.getD c 0 < W32 then 0
      else (T + (d1 + 1)) % W32)
    rw [it, ib, ic]
    exact aw_form ((T + (d1 + 1)) % W32) (ds.getD c 0)
      (Nat.mod_lt _ (by rw [W32_eq]; omega)) hd2W

/-- C1: wraparound correctness of the transmit deadline logic.  Right after
an active transmission step fired at counter value `T` and the addition of
the interval `d = buffer[cursor]` to `target_time` overflowed 32 bits
(`W32 ≤ T + d`, the code stores `wrap_guard = T` and the wrapped modular
target), the wrap-guard mechanism makes the next transition fire exactly at
the correct modular time: under a per-tick clock it never fires while the
elapsed time since the transition is less than `d`, and it fires at elapsed
time exactly `d`, the tick at which the live counter equals the modular
target — for any interval value `d` up to `2^32 - 1`. -/
theorem tx_wrap_guard_correct (ds : List Nat) (N c T : Nat) (s : WioInst)
    (rxv : Nat → Nat) (τ : Nat)
    (hbuf : s.tx_buffer = ds) (hlen : s.tx_buffer_len = N)
    (hcur : s.tx_buffer_cur = c)
    (hd : ds.getD (c - 1) 0 ≤ W32 - 1)
    (hover : W32 ≤ T + ds.getD (c - 1) 0)
    (htgt : s.tx_target_time = (T + ds.getD (c - 1) 0) % W32)
    (haw : s.tx_await_wrap = T)
    (hc1 : 1 ≤ c) (hcN : c ≠ N) (hT : T < W32) (hτ : τ % W32 = T)
    (hcW : c + 1 < W32) (hnext : ds.getD c 0 < W32) :
    (∀ e, e < ds.getD (c - 1) 0 →
      (loopRun s rxv (τ + 1) e).tx_buffer_cur = c) ∧
    (loopRun s rxv (τ + 1) (ds.getD (c - 1) 0)).tx_buffer_cur = c + 1 ∧
    (τ + ds.getD (c - 1) 0) % W32 = s.tx_target_time := by
  have hd0 : 0 < ds.getD (c - 1) 0 := by
    rw [W32_eq] at hover hT
    omega
  have hdW : ds.getD (c - 1) 0 < W32 := by
    rw [W32_eq] at hd ⊢
    omega
  have haw' : s.tx_await_wrap =
      (if T + ds.getD (c - 1) 0 < W32 then 0 else T) := by
    rw [haw, if_neg (by omega)]
  refine ⟨?_, ?_, ?_⟩
  · intro e he
    exact (interval_hold ds N c T (ds.getD (c - 1) 0) s rxv τ hbuf hlen hcur
      htgt haw' hc1 hcN hT hd0 hdW hτ e (by omega)).2.2.1
  · exact (interval_fire ds N c T (ds.getD (c - 1) 0) s rxv τ hbuf hlen hcur
      htgt haw' hc1 hcN hT hd0 hdW hτ hcW hnext).2.2.1
  · rw [htgt]
    exact mod_shift τ T (ds.getD (c - 1) 0) hτ

/-- Witness for `tx_wrap_guard_correct`: a transmission whose second interval
(5 ticks, added at counter value `2^32 - 2`) overflows the counter. -/
theorem tx_wrap_guard_correct_witness :
    (W32 ≤ 4294967294 + List.getD [5, 7] (1 - 1) 0) ∧
    ((∀ e, e < List.getD [5, 7] (1 - 1) 0 →
      (loopRun ⟨[5, 7], 1, 2, 3, 4294967294, 0, 1, [], 0, 0, 0, 0, 1⟩
        (fun _ => 0) (4294967294 + 1) e).tx_buffer_cur = 1) ∧
    (loopRun ⟨[5, 7], 1, 2, 3, 4294967294, 0, 1, [], 0, 0, 0, 0, 1⟩
        (fun _ => 0) (4294967294 + 1) (List.getD [5, 7] (1 - 1) 0)).tx_buffer_cur
      = 1 + 1 ∧
    (4294967294 + List.getD [5, 7] (1 - 1) 0) % W32 =
      (⟨[5, 7], 1, 2, 3, 4294967294, 0, 1, [], 0, 0, 0, 0, 1⟩ :
        WioInst).tx_target_time) :=
  ⟨by decide,
    tx_wrap_guard_correct [5, 7] 2 1 4294967294
      ⟨[5, 7], 1, 2, 3, 4294967294, 0, 1, [], 0, 0, 0, 0, 1⟩ (fun _ => 0)
      4294967294 rfl rfl rfl (by decide) (by decide) (by decide) rfl
      (by decide) (by decide) (by decide) (by decide) (by decide) (by decide)⟩

theorem psum_succ (ds : List Nat) (k : Nat) (h : k < ds.length) :
    psum ds (k + 1) = psum ds k + ds.getD k 0 := by
  induction ds generalizing k with
  | nil => simp at h
  | cons a t ih =>
    cases k with
    | zero => simp [psum]
    | succ m =>
      have hm : m < t.length := by simpa using h
      have ihm := ih m hm
      simp only [psum, List.take_succ_cons, List.sum_cons, List.getD_cons_succ] at ihm ⊢
      omega

theorem loopRun_add (s : WioInst) (rxv : Nat → Nat) (t0 a b : Nat) :
    loopRun s rxv t0 (a + b) = loopRun (loopRun s rxv t0 a) rxv (t0 + a) b := by
  induction b with
  | zero => rfl
  | succ m ih =>
    show loopIter (loopRun s rxv t0 (a + m)) ((t0 + (a + m)) % W32)
        (rxv (t0 + (a + m))) = _
    rw [ih, ← Nat.add_assoc]
    rfl

/-- The very first loop iteration after `tx_start` fires the first transition
immediately: `target_time` is set to the sampled counter value and the fire
condition holds at once. -/
theorem loopRun_first_fire (ds : List Nat) (N : Nat) (s : WioInst)
    (rxv : Nat → Nat) (τ0 : Nat)
    (hbuf : s.tx_buffer = ds) (hlen : s.tx_buffer_len = N)
    (hcur : s.tx_buffer_cur = 0) (hN1 : N ≠ 0) (hdW : ds.getD 0 0 < W32) :
    (loopRun s rxv τ0 1).tx_buffer = ds ∧
    (loopRun s rxv τ0 1).tx_buffer_len = N ∧
    (loopRun s rxv τ0 1).tx_buffer_cur = 1 ∧
    (loopRun s rxv τ0 1).tx_target_time = (τ0 % W32 + ds.getD 0 0) % W32 ∧
    (loopRun s rxv τ0 1).tx_await_wrap =
      (if τ0 % W32 + ds.getD 0 0 < W32 then 0 else τ0 % W32) := by
  have hstep : loopRun s rxv τ0 1 =
      loopIter s ((τ0 + 0) % W32) (rxv (τ0 + 0)) := rfl
  rcases loopIter_tx_fields s ((τ0 + 0) % W32) (rxv (τ0 + 0)) with
    ⟨fb, fc, fl, ft, fa⟩
  have heq := txStep_first s ((τ0 + 0) % W32) hcur (by rw [hlen]; exact hN1)
  rw [hstep, fb, fc, fl, ft, fa, heq]
  refine ⟨?_, ?_, ?_, ?_, ?_⟩
  · show s.tx_buffer = ds
    exact hbuf
  · show s.tx_buffer_len = N
    exact hlen
  · show (s.tx_buffer_cur + 1) % W32 = 1
    rw [hcur, W32_eq]
  · show ((τ0 + 0) % W32 + s.tx_buffer.getD s.tx_buffer_cur 0) % W32 =
      (τ0 % W32 + ds.getD 0 0) % W32
    rw [hbuf, hcur, Nat.add_zero]
  · show (if (τ0 + 0) % W32 ≤
        ((τ0 + 0) % W32 + s.tx_buffer.getD s.tx_buffer_cur 0) % W32 then 0
      else (τ0 + 0) % W32) =
      (if τ0 % W32 + ds.getD 0 0 < W32 then 0 else τ0 % W32)
    rw [hbuf, hcur, Nat.add_zero]
    exact aw_form (τ0 % W32) (ds.getD 0 0)
      (Nat.mod_lt _ (by rw [W32_eq]; omega)) hdW

/-- After the `c`-th transition (which fires at true time `τ0 + psum ds
(c-1)`, i.e. `psum ds (c-1)` ticks after the first transition), the state is
the post-fire state of the `c`-th interval. -/
theorem tx_chain (ds : List Nat) (N : Nat) (s : WioInst) (rxv : Nat → Nat)
    (τ0 : Nat) (hbuf : s.tx_buffer = ds) (hlen : s.tx_buffer_len = N)
    (hcur : s.tx_buffer_cur = 0) (hN1 : 1 ≤ N) (hNds : N ≤ ds.length)
    (hNW : N + 1 < W32)
    (hds : ∀ i, i < N → 1 ≤ ds.getD i 0 ∧ ds.getD i 0 < W32) :
    ∀ c, 1 ≤ c → c ≤ N →
      (loopRun s rxv τ0 (psum ds (c - 1) + 1)).tx_buffer = ds ∧
      (loopRun s rxv τ0 (psum ds (c - 1) + 1)).tx_buffer_len = N ∧
      (loopRun s rxv τ0 (psum ds (c - 1) + 1)).tx_buffer_cur = c ∧
      (loopRun s rxv τ0 (psum ds (c - 1) + 1)).tx_target_time =
        ((τ0 + psum ds (c - 1)) % W32 + ds.getD (c - 1) 0) % W32 ∧
      (loopRun s rxv τ0 (psum ds (c - 1) + 1)).tx_await_wrap =
        (if (τ0 + psum ds (c - 1)) % W32 + ds.getD (c - 1) 0 < W32 then 0
        else (τ0 + psum ds (c - 1)) % W32) := by
  intro c
  induction c with
  | zero =>
    intro h1 _
    exact absurd h1 (by omega)
  | succ k ihk =>
    intro _ hc
    by_cases hk0 : k = 0
    · subst hk0
      exact loopRun_first_fire ds N s rxv τ0 hbuf hlen hcur (by omega)
        (hds 0 (by omega)).2
    · obtain ⟨m, rfl⟩ : ∃ m, k = m + 1 := ⟨k - 1, by omega⟩
      rcases ihk (by omega) (by omega) with ⟨ib, il, ic, it, ia⟩
      have hps : psum ds (m + 1) = psum ds m + ds.getD m 0 :=
        psum_succ ds m (by omega)
      have hfire := interval_fire ds N (m + 1) ((τ0 + psum ds m) % W32)
        (ds.getD m 0) (loopRun s rxv τ0 (psum ds m + 1)) rxv
        (τ0 + psum ds m) ib il ic it ia (by omega) (by omega)
        (Nat.mod_lt _ (by rw [W32_eq]; omega)) (hds m (by omega)).1
        (hds m (by omega)).2 rfl
        (by rw [W32_eq] at hNW ⊢; omega) (hds (m + 1) (by omega)).2
      have hTeq : ((τ0 + psum ds m) % W32 + ds.getD m 0) % W32 =
          (τ0 + psum ds (m + 1)) % W32 := by
        rw [hps, W32_eq]
        omega
      rw [hTeq] at hfire
      rw [show (τ0 + psum ds m) + 1 = τ0 + (psum ds m + 1) from by omega]
        at hfire
      rw [← loopRun_add s rxv τ0 (psum ds m + 1) (ds.getD m 0)] at hfire
      rw [show psum ds m + 1 + ds.getD m 0 = psum ds (m + 1) + 1 from
        by omega] at hfire
      exact hfire

theorem psum_cover (ds : List Nat) (M k : Nat) (h1 : 1 ≤ k)
    (h2 : k ≤ psum ds M) :
    ∃ c, 1 ≤ c ∧ c ≤ M ∧ psum ds (c - 1) < k ∧ k ≤ psum ds c := by
  induction M with
  | zero =>
    have h0 : psum ds 0 = 0 := rfl
    omega
  | succ m ih =>
    by_cases hle : k ≤ psum ds m
    · rcases ih hle with ⟨c, hc1, hcm, hlo, hhi⟩
      exact ⟨c, hc1, by omega, hlo, hhi⟩
    · refine ⟨m + 1, by omega, Nat.le_refl _, ?_, h2⟩
      show psum ds m < k
      omega

/-- Before `psum ds (N - 1)` ticks have elapsed since the first transition,
the transmission is not complete: the cursor is still below `N`. -/
theorem tx_not_before (ds : List Nat) (N : Nat) (s : WioInst)
    (rxv : Nat → Nat) (τ0 : Nat)
    (hbuf : s.tx_buffer = ds) (hlen : s.tx_buffer_len = N)
    (hcur : s.tx_buffer_cur = 0) (hN1 : 1 ≤ N) (hNds : N ≤ ds.length)
    (hNW : N + 1 < W32)
    (hds : ∀ i, i < N → 1 ≤ ds.getD i 0 ∧ ds.getD i 0 < W32) :
    ∀ k, k ≤ psum ds (N - 1) →
      (loopRun s rxv τ0 k).tx_buffer_cur < N := by
  intro k hk
  rcases Nat.eq_zero_or_pos k with hk0 | hk1
  · subst hk0
    show s.tx_buffer_cur < N
    omega
  · rcases psum_cover ds (N - 1) k hk1 hk with ⟨c, hc1, hcN1, hlo, hhi⟩
    rcases tx_chain ds N s rxv τ0 hbuf hlen hcur hN1 hNds hNW hds c hc1
      (by omega) with ⟨ib, il, ic, it, ia⟩
    have hps : psum ds c = psum ds (c - 1) + ds.getD (c - 1) 0 := by
      obtain ⟨m, rfl⟩ : ∃ m, c = m + 1 := ⟨c - 1, by omega⟩
      exact psum_succ ds m (by omega)
    have hhold := interval_hold ds N c ((τ0 + psum ds (c - 1)) % W32)
      (ds.getD (c - 1) 0) (loopRun s rxv τ0 (psum ds (c - 1) + 1)) rxv
      (τ0 + psum ds (c - 1)) ib il ic it ia hc1 (by omega)
      (Nat.mod_lt _ (by rw [W32_eq]; omega)) (hds (c - 1) (by omega)).1
      (hds (c - 1) (by omega)).2 rfl (k - psum ds (c - 1) - 1) (by omega)
    rw [show (τ0 + psum ds (c - 1)) + 1 = τ0 + (psum ds (c - 1) + 1) from
      by omega] at hhold
    rw [← loopRun_add s rxv τ0 (psum ds (c - 1) + 1)
      (k - psum ds (c - 1) - 1)] at hhold
    rw [show psum ds (c - 1) + 1 + (k - psum ds (c - 1) - 1) = k from
      by omega] at hhold
    rw [hhold.2.2.1]
    omega

/-- C2: transmit completion and total duration.  With the loop enabled and
the clock advancing one tick per iteration, after `wio_tx_start N` on an
even-length buffer of `N ≥ 1` positive intervals: the first transition
fires on the very first iteration (no initial delay, because the code sets
`target_time := current_time` when the cursor is 0); the cursor reaches `N`
exactly `psum ds (N-1)` ticks after the first transition — the elapsed time
from the first to the `N`-th transition equals the sum of
`buffer[0..N-2]` — and not a tick earlier; the final entry `buffer[N-1]` is
never waited out. -/
theorem tx_completion_timing (ds : List Nat) (N : Nat) (s : WioInst)
    (rxv : Nat → Nat) (τ0 : Nat)
    (hbuf : s.tx_buffer = ds) (hrun : s.main_loop_running = 1)
    (hN1 : 1 ≤ N) (hNe : N % 2 = 0) (hNds : N ≤ ds.length)
    (hNW : N + 1 < W32)
    (hds : ∀ i, i < N → 1 ≤ ds.getD i 0 ∧ ds.getD i 0 < W32) :
    wio_tx_cursor (loopRun (wio_tx_start s N) rxv τ0 1) = 1 ∧
    wio_tx_cursor (loopRun (wio_tx_start s N) rxv τ0
      (psum ds (N - 1) + 1)) = N ∧
    (∀ k, k ≤ psum ds (N - 1) →
      wio_tx_cursor (loopRun (wio_tx_start s N) rxv τ0 k) < N) := by
  have hbuf0 : (wio_tx_start s N).tx_buffer = ds := hbuf
  have hlen0 : (wio_tx_start s N).tx_buffer_len = N := rfl
  have hcur0 : (wio_tx_start s N).tx_buffer_cur = 0 := rfl
  refine ⟨?_, ?_, ?_⟩
  · exact (loopRun_first_fire ds N (wio_tx_start s N) rxv τ0 hbuf0 hlen0
      hcur0 (by omega) (hds 0 (by omega)).2).2.2.1
  · exact (tx_chain ds N (wio_tx_start s N) rxv τ0 hbuf0 hlen0 hcur0 hN1
      hNds hNW hds N hN1 (Nat.le_refl N)).2.2.1
  · exact tx_not_before ds N (wio_tx_start s N) rxv τ0 hbuf0 hlen0 hcur0
      hN1 hNds hNW hds

/-- Witness for `tx_completion_timing`: the buffer `[2, 3]`, `N = 2`,
starting at counter 0.  The first transition fires on iteration 1 and the
cursor reaches 2 after `2 + 1` iterations and not before. -/
theorem tx_completion_timing_witness :
    ((1 : Nat) ≤ 2 ∧ (2 : Nat) % 2 = 0 ∧ (2 : Nat) ≤ List.length [2, 3] ∧
      (2 : Nat) + 1 < W32 ∧
      (∀ i, i < 2 → 1 ≤ List.getD [2, 3] i 0 ∧ List.getD [2, 3] i 0 < W32)) ∧
    (wio_tx_cursor (loopRun (wio_tx_start
        ⟨[2, 3], 5, 7, 9, 11, 0, 0, [], 0, 0, 0, 0, 1⟩ 2) (fun _ => 0) 0 1) = 1 ∧
    wio_tx_cursor (loopRun (wio_tx_start
        ⟨[2, 3], 5, 7, 9, 11, 0, 0, [], 0, 0, 0, 0, 1⟩ 2) (fun _ => 0) 0
      (psum [2, 3] (2 - 1) + 1)) = 2 ∧
    (∀ k, k ≤ psum [2, 3] (2 - 1) →
      wio_tx_cursor (loopRun (wio_tx_start
        ⟨[2, 3], 5, 7, 9, 11, 0, 0, [], 0, 0, 0, 0, 1⟩ 2) (fun _ => 0) 0 k) < 2)) :=
  ⟨⟨by decide, by decide, by decide, by decide, by decide⟩,
    tx_completion_timing [2, 3] 2 ⟨[2, 3], 5, 7, 9, 11, 0, 0, [], 0, 0, 0, 0, 1⟩
      (fun _ => 0) 0 rfl rfl (by decide) (by decide) (by decide) (by decide)
      (by decide)⟩
